import Mathlib

/-!
Verification of the content-moderation and retrieval core of the career
Q&A service (backend/app/services/content_validator.py and
backend/app/services/rag_service.py).

Text is modelled as `List Char`.  The three regular expressions of
`check_pii` / `check_spam` are implemented as explicit scanners with
Python `re` semantics (leftmost match, greedy quantifiers with
backtracking, `\b` word boundaries, non-overlapping substitution over the
original string).  The two ML classifiers are external capabilities: their
outcomes (including failure) are parameters (`ToxOutcome`, `RelOutcome`).
Classifier confidence scores are modelled as `ℚ`; the only operation the
code performs on them is comparison against constant thresholds, so no
floating-point rounding behaviour is observable except in the two-decimal
rendering of a score inside a reason string (`fmt2` below).
-/

/-! ## Character class helpers (ASCII, as exercised by the service's inputs) -/

def pyToLower (c : Char) : Char :=
  if 'A' ≤ c ∧ c ≤ 'Z' then Char.ofNat (c.toNat + 32) else c

def pyLower (l : List Char) : List Char := l.map pyToLower

def isSpaceP (c : Char) : Bool :=
  c = ' ' || c = '\t' || c = '\n' || c = '\r' || c = '\x0b' || c = '\x0c'

def isDigitC (c : Char) : Bool := '0' ≤ c && c ≤ '9'

def isAlphaC (c : Char) : Bool := ('a' ≤ c && c ≤ 'z') || ('A' ≤ c && c ≤ 'Z')

def isWordC (c : Char) : Bool := isAlphaC c || isDigitC c || c = '_'

def isWordO : Option Char → Bool
  | none => false
  | some c => isWordC c

def isDigitO : Option Char → Bool
  | none => false
  | some c => isDigitC c

def isPrefixB : List Char → List Char → Bool
  | [], _ => true
  | _ :: _, [] => false
  | a :: as, b :: bs => a = b && isPrefixB as bs

/-- Python's substring containment `needle in hay`. -/
def containsSub (n : List Char) : List Char → Bool
  | [] => isPrefixB n []
  | c :: t => isPrefixB n (c :: t) || containsSub n t

/-- Length of the maximal prefix run of characters satisfying `p`
(the text a greedy character-class quantifier consumes). -/
def runLen (p : Char → Bool) (l : List Char) : ℕ := (l.takeWhile p).length

/-- Python's `str.strip()`. -/
def pyStrip (l : List Char) : List Char :=
  ((l.dropWhile isSpaceP).reverse.dropWhile isSpaceP).reverse

/-! ## The email pattern `[A-Za-z0-9._%+-]+@[A-Za-z0-9.-]+\.[A-Za-z]{2,}`
(content_validator.py line 191) -/

def localChar (c : Char) : Bool :=
  isAlphaC c || isDigitC c || c = '.' || c = '_' || c = '%' || c = '+' || c = '-'

def domainChar (c : Char) : Bool :=
  isAlphaC c || isDigitC c || c = '.' || c = '-'

/-- Backtracking over the greedy `[A-Za-z0-9.-]+` group: try the domain
length `j` from the maximal run downwards; each attempt needs a literal
dot right after the domain followed by at least two letters (the TLD run
is itself greedy and ends the pattern).  Returns the total length of
`domain ++ dot ++ tld` on success. -/
def emailTailTry (rest : List Char) : ℕ → Option ℕ
  | 0 => none
  | j + 1 =>
    match rest.drop (j + 1) with
    | '.' :: tl =>
      if 2 ≤ runLen isAlphaC tl then some ((j + 1) + 1 + runLen isAlphaC tl)
      else emailTailTry rest j
    | _ => emailTailTry rest j

/-- Match length of the email pattern anchored at the head of `l`.
The local part is a maximal run (shortening it can never expose an `@`,
because `@` is not a local-part character). -/
def emailMatchAt (_prev : Option Char) (l : List Char) : Option ℕ :=
  let k := runLen localChar l
  if k = 0 then none
  else
    match l.drop k with
    | '@' :: rest =>
      match emailTailTry rest (runLen domainChar rest) with
      | some m => some (k + 1 + m)
      | none => none
    | _ => none

/-! ## The phone pattern `\b\+?\d[\d\-\s]{7,}\d\b`
(content_validator.py line 192) -/

def phoneMidC (c : Char) : Bool := isDigitC c || c = '-' || isSpaceP c

/-- Backtracking over the greedy `[\d\-\s]{7,}`: try the middle length
`k` from the maximal run `m` downwards to 7; each attempt needs a digit
right after the middle and a word boundary after that digit.  The
argument counts the remaining attempts, so the call starts at `m - 6`
(attempt `j + 1` tries middle length `j + 7`). -/
def phoneTailAux (rest : List Char) : ℕ → Option ℕ
  | 0 => none
  | j + 1 =>
    if isDigitO (rest.get? (j + 7)) && !isWordO (rest.get? (j + 8)) then some (j + 7)
    else phoneTailAux rest j

def phoneTailFind (rest : List Char) (m : ℕ) : Option ℕ := phoneTailAux rest (m - 6)

/-- After the optional plus: a digit, the greedy middle, a digit, `\b`. -/
def phoneCore : List Char → Option ℕ
  | [] => none
  | c :: rest =>
    if isDigitC c then
      match phoneTailFind rest (runLen phoneMidC rest) with
      | some k => some (1 + k + 1)
      | none => none
    else none

/-- Match length of the phone pattern anchored at the head of `l`.
`prev` is the character before the current position in the string being
scanned (`none` at the start), needed for the leading `\b`: the boundary
holds iff exactly one side is a word character.  When the head is `+`
the `\b` is tested against the `+` itself; the engine's fallback of not
consuming the optional `+` can never succeed because `\d` rejects `+`. -/
def phoneMatchAt (prev : Option Char) (l : List Char) : Option ℕ :=
  if isWordO prev = isWordO l.head? then none
  else
    match l with
    | [] => none
    | '+' :: rest => (phoneCore rest).map (· + 1)
    | c :: rest => phoneCore (c :: rest)

/-! ## The URL pattern `(https?://\S+|www\.\S+)`
(content_validator.py lines 193 and 226) -/

def nonSpaceRun (l : List Char) : ℕ := runLen (fun c => !isSpaceP c) l

def urlWwwAt (l : List Char) : Option ℕ :=
  match l with
  | 'w' :: 'w' :: 'w' :: '.' :: tl =>
    if 1 ≤ nonSpaceRun tl then some (4 + nonSpaceRun tl) else none
  | _ => none

/-- Match length of the URL alternation anchored at the head of `l`:
first `https?://\S+` (with the optional `s` tried greedily), then
`www\.\S+`. -/
def urlMatchAt (_prev : Option Char) (l : List Char) : Option ℕ :=
  match l with
  | 'h' :: 't' :: 't' :: 'p' :: 's' :: ':' :: '/' :: '/' :: tl =>
    if 1 ≤ nonSpaceRun tl then some (8 + nonSpaceRun tl) else urlWwwAt l
  | 'h' :: 't' :: 't' :: 'p' :: ':' :: '/' :: '/' :: tl =>
    if 1 ≤ nonSpaceRun tl then some (7 + nonSpaceRun tl) else urlWwwAt l
  | _ => urlWwwAt l

/-! ## Scanning machinery shared by `re.search`, `re.sub`, `re.findall`.
A matcher takes the previous original character (for `\b`) and the
remaining text, and returns the match length anchored there. -/

def searchFrom (m : Option Char → List Char → Option ℕ) (prev : Option Char) :
    List Char → Bool
  | [] => false
  | c :: rest => (m prev (c :: rest)).isSome || searchFrom m (some c) rest

/-- `re.search(pattern, l) is not None`. -/
def pySearch (m : Option Char → List Char → Option ℕ) (l : List Char) : Bool :=
  searchFrom m none l

/-- One fuel unit is spent per scanned position; every match of the three
patterns above consumes at least one character, so fuel `l.length`
(supplied by `pySub`) always suffices and the fallback branch is
unreachable.  Matches are located in the original string (the resume
position's `prev` is the last character of the match), exactly as
`re.sub` scans. -/
def subFuel (m : Option Char → List Char → Option ℕ) (repl : List Char) :
    ℕ → Option Char → List Char → List Char
  | _, _, [] => []
  | 0, _, l => l
  | fuel + 1, prev, c :: rest =>
    match m prev (c :: rest) with
    | some n => repl ++ subFuel m repl fuel ((c :: rest).get? (n - 1)) (rest.drop (n - 1))
    | none => c :: subFuel m repl fuel (some c) rest

/-- `re.sub(pattern, repl, l)`: replace all leftmost non-overlapping matches. -/
def pySub (m : Option Char → List Char → Option ℕ) (repl : List Char)
    (l : List Char) : List Char :=
  subFuel m repl l.length none l

def countFuel (m : Option Char → List Char → Option ℕ) :
    ℕ → Option Char → List Char → ℕ
  | _, _, [] => 0
  | 0, _, _ => 0
  | fuel + 1, prev, c :: rest =>
    match m prev (c :: rest) with
    | some n => countFuel m fuel ((c :: rest).get? (n - 1)) (rest.drop (n - 1)) + 1
    | none => countFuel m fuel (some c) rest

/-- `len(re.findall(pattern, l))`: the number of leftmost
non-overlapping matches. -/
def pyFindallCount (m : Option Char → List Char → Option ℕ) (l : List Char) : ℕ :=
  countFuel m l.length none l

/-! ## check_pii (content_validator.py lines 173-218) -/

structure PiiResult where
  cleaned_text : List Char
  had_pii : Bool
  reasons : List (List Char)
deriving DecidableEq

def check_pii (text : List Char) : PiiResult :=
  let e := pySearch emailMatchAt text
  let c1 := if e then pySub emailMatchAt "[EMAIL]".data text else text
  let p := pySearch phoneMatchAt c1
  let c2 := if p then pySub phoneMatchAt "[PHONE]".data c1 else c1
  let u := pySearch urlMatchAt c2
  let c3 := if u then pySub urlMatchAt "[URL]".data c2 else c2
  let had := e || p || u
  { cleaned_text := c3
    had_pii := had
    reasons := if had then ["contains PII (auto-redacted)".data] else [] }

/-! ## check_spam (content_validator.py lines 222-248) -/

structure SpamResult where
  is_spam : Bool
  reasons : List (List Char)
deriving DecidableEq

/-- The `promo` list of `_get_keywords` (content_validator.py lines 56-62). -/
def promoKeywords : List (List Char) :=
  ["promo code".data, "discount".data, "affiliate".data, "sign up here".data, "dm me".data]

/-- `len(url_pattern.findall(text))`: the URL count of `check_spam`
(computed on the original, un-lowered text). -/
def urlCount (text : List Char) : ℕ := pyFindallCount urlMatchAt text

def hasPromoKeyword (text : List Char) : Bool :=
  promoKeywords.any (fun w => containsSub w (pyLower text))

def check_spam (text : List Char) : SpamResult :=
  let urls := urlCount text
  let manyLinks := decide (2 ≤ urls)
  let promo := hasPromoKeyword text
  let spam := manyLinks || promo
  { is_spam := spam
    reasons :=
      (if manyLinks then ["many links (possible promotion)".data] else [])
      ++ (if promo then ["promotional language".data] else [])
      ++ (if !spam && decide (urls = 1) then ["contains link (needs review)".data] else []) }

/-! ## check_safety (content_validator.py lines 105-170) -/

/-- Outcome of the external toxicity classifier call, whose failure the
source absorbs with `try ... except Exception: pass`: `err` covers a
model that fails to load or errors at inference, `ok` carries the parsed
label and confidence. -/
inductive ToxOutcome where
  | err : ToxOutcome
  | ok (label : List Char) (score : ℚ) : ToxOutcome
deriving DecidableEq

def hateWords : List (List Char) := ["idiot".data, "stupid".data, "dumb".data, "loser".data]

def threatWords : List (List Char) := ["kill you".data, "hurt you".data, "destroy you".data]

def selfHarmWords : List (List Char) := ["end my life".data, "kill myself".data]

def illegalAdviceWords : List (List Char) :=
  ["lie on my resume".data, "lie on your resume".data, "fake experience".data,
   "cheat the test".data, "cheat the interview".data, "bribe".data,
   "insider info".data, "insider information".data]

/-- Each keyword-family loop of `check_safety`: the first matching
keyword flags the family and breaks, so only whether some keyword
matches is observable. -/
def familyHit (ws : List (List Char)) (lowered : List Char) : Bool :=
  ws.any (fun w => containsSub w lowered)

/-- The constant 0.7 (`score >= 0.7`), written in normal form so that
comparisons against it evaluate. -/
def toxThreshold : ℚ := ⟨7, 10, by norm_num, by norm_num⟩

def ratHalf : ℚ := ⟨1, 2, by norm_num, by norm_num⟩

def natPad2 (n : ℕ) : List Char :=
  if n < 10 then '0' :: Nat.toDigits 10 n else Nat.toDigits 10 n

/-- Python's `f"{q:.2f}"` for the scores appearing in reason strings.
The float's round-half-even is modelled as round-half-up on `ℚ`; the two
agree except at exact ties in the third decimal, which no claim
exercises. -/
def fmt2 (q : ℚ) : List Char :=
  let cents := (Rat.floor (q * 100 + ratHalf)).toNat
  Nat.toDigits 10 (cents / 100) ++ '.' :: natPad2 (cents % 100)

/-- The model branch of `check_safety` (lines 151-165): on a successful
call the label is lowered; a toxic/negative label with score at least
0.7 both appends a reason and forces `is_critical`. -/
def modelFlagOutcome (tox : ToxOutcome) : Option (List Char) :=
  match tox with
  | .err => none
  | .ok label score =>
    let lab := pyLower label
    if (containsSub "toxic".data lab || containsSub "negative".data lab)
        && decide (toxThreshold ≤ score)
    then some ("model flagged text as ".data ++ lab ++ " (score ".data ++ fmt2 score ++ ")".data)
    else none

structure SafetyResult where
  is_critical : Bool
  reasons : List (List Char)
deriving DecidableEq

def check_safety (text : List Char) (tox : ToxOutcome) : SafetyResult :=
  let lowered := pyLower text
  let hate := familyHit hateWords lowered
  let threats := familyHit threatWords lowered
  let selfHarm := familyHit selfHarmWords lowered
  let illegal := familyHit illegalAdviceWords lowered
  let modelReason := modelFlagOutcome tox
  { is_critical := hate || threats || selfHarm || illegal || modelReason.isSome
    reasons :=
      (if hate then ["hate / harassment language (keyword)".data] else [])
      ++ (if threats then ["threatening language (keyword)".data] else [])
      ++ (if selfHarm then ["self-harm language (keyword)".data] else [])
      ++ (if illegal then ["illegal or unethical advice (keyword)".data] else [])
      ++ (match modelReason with | some r => [r] | none => []) }

/-! ## check_relevance (content_validator.py lines 251-320) -/

/-- Outcome of the external zero-shot classifier call.  The source has no
`try` around this call, so `err` makes `check_relevance` fail; `ok`
carries the `zip(result["labels"], result["scores"])` pairs. -/
inductive RelOutcome where
  | err : RelOutcome
  | ok (pairs : List (List Char × ℚ)) : RelOutcome
deriving DecidableEq

/-- `dict(zip(labels, scores)).get(k, d)`: later duplicate keys
overwrite earlier ones. -/
def pyDictGet (pairs : List (List Char × ℚ)) (k : List Char) (d : ℚ) : ℚ :=
  pairs.foldl (fun acc p => if p.1 = k then p.2 else acc) d

def relevanceOnTopicA : List Char := "career or job experience in tech".data

def relevanceOnTopicB : List Char := "interview preparation or job search".data

def relevanceOnTopicC : List Char := "professional growth or learning".data

def careerKeywords : List (List Char) :=
  ["job".data, "work".data, "career".data, "internship".data, "interview".data,
   "resume".data, "cv".data, "promotion".data, "manager".data, "software engineer".data,
   "developer".data, "programmer".data, "data scientist".data, "tech company".data,
   "startup".data, "team lead".data, "product manager".data]

/-- The constant 0.45 (`career_score < 0.45`), in normal form. -/
def relevanceThreshold : ℚ := ⟨9, 20, by norm_num, by norm_num⟩

/-- Lines 268-271: strip one layer of matching wrapping quotes from the
trimmed text, then trim again. -/
def stripWrappingQuotes (t : List Char) : List Char :=
  let s := pyStrip t
  if (s.head? == some '"' && s.getLast? == some '"')
      || (s.head? == some '\'' && s.getLast? == some '\'')
  then pyStrip (s.drop 1).dropLast else s

structure RelevanceResult where
  is_off_topic : Bool
  reasons : List (List Char)
deriving DecidableEq

def check_relevance (text : List Char) (rel : RelOutcome) : Except Unit RelevanceResult :=
  let cleanedText := stripWrappingQuotes text
  match rel with
  | .err => .error ()
  | .ok pairs =>
    let careerScore :=
      max (pyDictGet pairs relevanceOnTopicA 0)
        (max (pyDictGet pairs relevanceOnTopicB 0) (pyDictGet pairs relevanceOnTopicC 0))
    let lowered := pyLower cleanedText
    let hasCareerWords := careerKeywords.any (fun w => containsSub w lowered)
    let offTopic := decide (careerScore < relevanceThreshold) || !hasCareerWords
    .ok { is_off_topic := offTopic
          reasons :=
            if !hasCareerWords then ["may be off-topic (no career-related words found)".data]
            else if offTopic then
              ["may be off-topic (career relevance score ".data ++ fmt2 careerScore ++ ")".data]
            else [] }

/-! ## validate_experience (content_validator.py lines 322-393) -/

structure Verdict where
  cleaned_text : List Char
  status : List Char
  severity : Option (List Char)
  flagged_reason : Option (List Char)
  flagged_at : Option ℕ
deriving DecidableEq

/-- Python's `sep.join(parts)`. -/
def joinReasons (sep : List Char) : List (List Char) → List Char
  | [] => []
  | [r] => r
  | r :: rest => r ++ sep ++ joinReasons sep rest

/-- The moderation pipeline.  `now` stands for `datetime.utcnow()`; the
two classifier outcomes are the external calls made during this run.
The source has no exception handling of its own, so a `check_relevance`
failure propagates (an `Except.error`), while `check_safety` is total.
The `decision` triple bundles the severity/status/flagged_at assignments
of the source's if/elif chain (lines 360-381), which share one branch
condition. -/
def validate_experience (text : List Char) (tox : ToxOutcome) (rel : RelOutcome)
    (now : ℕ) : Except Unit Verdict :=
  let piiResult := check_pii text
  let cleanedText := piiResult.cleaned_text
  let safetyResult := check_safety cleanedText tox
  let spamResult := check_spam cleanedText
  match check_relevance cleanedText rel with
  | .error e => .error e
  | .ok relevanceResult =>
    let allReasons := piiResult.reasons ++ safetyResult.reasons
      ++ spamResult.reasons ++ relevanceResult.reasons
    let decision : Option (List Char) × List Char × Option ℕ :=
      if safetyResult.is_critical then (some "critical".data, "pending".data, some now)
      else if spamResult.is_spam then (some "medium".data, "pending".data, some now)
      else if relevanceResult.is_off_topic then (some "low".data, "pending".data, some now)
      else if piiResult.had_pii then (some "medium".data, "pending".data, some now)
      else (none, "approved".data, none)
    let flaggedReason := if allReasons.isEmpty then none
      else some (joinReasons "; ".data allReasons)
    .ok { cleaned_text := cleanedText
          status := decision.2.1
          severity := decision.1
          flagged_reason := flaggedReason
          flagged_at := decision.2.2 }

/-! ## PgVectorRetriever._truncate_text (rag_service.py lines 76-91) -/

def truncationMarker : List Char := "... [truncated]".data

/-- Python's `l.rsplit(' ', 1)[0]`: everything before the last space, or
the whole string when it has no space. -/
def pyRsplitOne (l : List Char) : List Char :=
  if l.contains ' ' then ((l.reverse.dropWhile (fun c => !(c == ' '))).drop 1).reverse
  else l

/-- `_truncate_text` (written `truncate_text`: Lean reserves the leading
underscore style for inaccessible names). -/
def truncate_text (text : List Char) (max_length : ℕ) : List Char :=
  if text.length ≤ max_length then text
  else pyRsplitOne (text.take max_length) ++ truncationMarker

/-! ## PgVectorRetriever._get_relevant_documents, row selection
(rag_service.py lines 93-165).  The SQL hits two tables; the union,
`WHERE` filters, `ORDER BY embedding <=> query` and `LIMIT k` are
modelled over explicit table contents.  The pgvector distance operator
is an abstract parameter `dist` (the claims hold for any distance). -/

abbrev Vec := List ℚ

structure PostRow where
  id : ℕ
  title : List Char
  text : List Char
  url : Option (List Char)
  embedding : Option Vec
deriving DecidableEq

structure SubRow where
  id : ℕ
  title : List Char
  text : List Char
  status : List Char
  experience_type : Option (List Char)
  embedding : Option Vec
deriving DecidableEq

inductive Row where
  | post (p : PostRow)
  | sub (s : SubRow)
deriving DecidableEq

/-- The `UNION ALL` of the two `SELECT`s with their `WHERE` clauses:
posts need a non-null embedding; user submissions need a non-null
embedding and `status = 'approved'`.  Each selected row is paired with
its (present) embedding, the `ORDER BY` key. -/
def eligiblePairs (posts : List PostRow) (subs : List SubRow) : List (Row × Vec) :=
  posts.filterMap (fun p => p.embedding.map (fun e => (Row.post p, e)))
  ++ subs.filterMap (fun s =>
      if s.status = "approved".data then s.embedding.map (fun e => (Row.sub s, e)) else none)

def insertLe {α : Type} (le : α → α → Bool) (a : α) : List α → List α
  | [] => [a]
  | b :: bs => if le a b then a :: b :: bs else b :: insertLe le a bs

/-- Insertion sort; the database's `ORDER BY` is any ordering consistent
with the key, and no claim depends on tie order. -/
def sortLe {α : Type} (le : α → α → Bool) : List α → List α
  | [] => []
  | a :: as => insertLe le a (sortLe le as)

def distLe (dist : Vec → Vec → ℚ) (q : Vec) (a b : Row × Vec) : Bool :=
  decide (dist q a.2 ≤ dist q b.2)

/-- The rows the retriever's query returns, in order: sort all eligible
rows by ascending distance to the query embedding and keep the first
`k` (`LIMIT :k`). -/
def get_relevant_rows (dist : Vec → Vec → ℚ) (q : Vec) (k : ℕ)
    (posts : List PostRow) (subs : List SubRow) : List Row :=
  ((sortLe (distLe dist q) (eligiblePairs posts subs)).take k).map Prod.fst

/-- The embedding stored on a row (present on every eligible row). -/
def rowVec : Row → Vec
  | .post p => p.embedding.getD []
  | .sub s => s.embedding.getD []

/-! ## ask_question source collection (rag_service.py lines 342-378) -/

/-- The metadata dictionary of one retrieved document, as the retriever
builds it (both branches set every key; `post_id` and `url` may hold
`None`).  Post-branch documents never carry `experience_type`. -/
structure DocMeta where
  source_type : List Char
  post_id : Option (List Char)
  url : Option (List Char)
  source : List Char
  date : Option (List Char)
  score : Option ℤ
  num_comments : Option ℤ
  experience_type : Option (List Char)
deriving DecidableEq

structure SourceInfo where
  url : Option (List Char)
  post_id : Option (List Char)
  source : List Char
  date : Option (List Char)
  score : Option ℤ
  num_comments : Option ℤ
  experience_type : Option (List Char)
deriving DecidableEq

/-- The `source_info` dict built for a user-experience document. -/
def expSourceInfo (d : DocMeta) (eid : List Char) : SourceInfo :=
  { url := none
    post_id := some eid
    source := "user_experience".data
    date := d.date
    score := none
    num_comments := none
    experience_type := d.experience_type }

/-- The `source_info` dict built for a post document. -/
def postSourceInfo (d : DocMeta) (u : List Char) : SourceInfo :=
  { url := some u
    post_id := d.post_id
    source := d.source
    date := d.date
    score := d.score
    num_comments := d.num_comments
    experience_type := none }

/-- The source-collection loop of `ask_question`: per-branch truthiness
check on the key (`if exp_id and ...` / `if url and ...`, so `None` and
the empty string are skipped) and two seen-sets for de-duplication. -/
def buildSourcesGo (seenUrls seenExps : List (List Char)) :
    List DocMeta → List SourceInfo
  | [] => []
  | d :: ds =>
    if d.source_type = "user_experience".data then
      match d.post_id with
      | some eid =>
        if eid ≠ [] ∧ eid ∉ seenExps then
          expSourceInfo d eid :: buildSourcesGo seenUrls (eid :: seenExps) ds
        else buildSourcesGo seenUrls seenExps ds
      | none => buildSourcesGo seenUrls seenExps ds
    else
      match d.url with
      | some u =>
        if u ≠ [] ∧ u ∉ seenUrls then
          postSourceInfo d u :: buildSourcesGo (u :: seenUrls) seenExps ds
        else buildSourcesGo seenUrls seenExps ds
      | none => buildSourcesGo seenUrls seenExps ds

def build_sources (docs : List DocMeta) : List SourceInfo := buildSourcesGo [] [] docs

/-- The entry a document would contribute if de-duplication kept it:
user-experience documents with a truthy id, other documents with a
truthy URL. -/
def candidateEntry (d : DocMeta) : Option SourceInfo :=
  if d.source_type = "user_experience".data then
    match d.post_id with
    | some eid => if eid ≠ [] then some (expSourceInfo d eid) else none
    | none => none
  else
    match d.url with
    | some u => if u ≠ [] then some (postSourceInfo d u) else none
    | none => none

/-- The de-duplication key of an entry: the URL for post entries (which
always carry one), tagged `false`, or the submission id for
user-experience entries (which never carry a URL), tagged `true`. -/
def entryKey (e : SourceInfo) : Bool × List Char :=
  match e.url with
  | some u => (false, u)
  | none => (true, e.post_id.getD [])

/-- Spec-side formulation of the de-duplication contract: keep each
key's first-seen entry, in first-seen order (`seen` accumulates the keys
already emitted). -/
def dedupByKeyAux (seen : List (Bool × List Char)) :
    List SourceInfo → List SourceInfo
  | [] => []
  | e :: es =>
    if entryKey e ∈ seen then dedupByKeyAux seen es
    else e :: dedupByKeyAux (entryKey e :: seen) es

def firstSeenDedup (l : List SourceInfo) : List SourceInfo := dedupByKeyAux [] l

/-! ## Concrete instances used by the witnesses -/

def witnessDist : Vec → Vec → ℚ := fun _ v => v.headD 0

def witnessQuery : Vec := [0]

def witnessPosts : List PostRow :=
  [{ id := 1, title := "t1".data, text := "post one".data,
     url := some "https://a".data, embedding := some [1] },
   { id := 2, title := "t2".data, text := "post two".data,
     url := some "https://b".data, embedding := some [3] },
   { id := 3, title := "t3".data, text := "not embedded".data,
     url := some "https://c".data, embedding := none }]

def witnessSubs : List SubRow :=
  [{ id := 5, title := "s1".data, text := "pending sub".data, status := "pending".data,
     experience_type := some "interview".data, embedding := some [2] },
   { id := 6, title := "s2".data, text := "approved sub".data, status := "approved".data,
     experience_type := none, embedding := some [10] }]

def witnessDocs : List DocMeta :=
  [{ source_type := "post".data, post_id := some "p1".data, url := some "https://a".data,
     source := "reddit".data, date := some "2024-01-01".data, score := some 3,
     num_comments := some 1, experience_type := none },
   { source_type := "post".data, post_id := some "p1".data, url := some "https://a".data,
     source := "reddit".data, date := some "2024-01-01".data, score := some 3,
     num_comments := some 1, experience_type := none },
   { source_type := "user_experience".data, post_id := some "7".data, url := none,
     source := "user_experience".data, date := none, score := none,
     num_comments := none, experience_type := some "interview".data },
   { source_type := "user_experience".data, post_id := some "7".data, url := none,
     source := "user_experience".data, date := none, score := none,
     num_comments := none, experience_type := some "interview".data },
   { source_type := "post".data, post_id := some "p2".data, url := none,
     source := "reddit".data, date := none, score := none,
     num_comments := none, experience_type := none }]

def witnessEntry : SourceInfo :=
  { url := some "https://a".data, post_id := some "p1".data, source := "reddit".data,
    date := some "2024-01-01".data, score := some 3, num_comments := some 1,
    experience_type := none }

/-! ## Helper lemmas -/

theorem check_pii_reasons_eq (text : List Char) :
    (check_pii text).reasons =
      if (check_pii text).had_pii then ["contains PII (auto-redacted)".data] else [] := rfl

/-! ## Claim theorems -/

/-- Claim C10: check_safety reports is_critical exactly when its reasons
list is non-empty; every keyword-family match and every accepted model
toxicity flag both appends a reason and forces is_critical, and no other
path contributes to either. -/
theorem safety_critical_iff_reasons (text : List Char) (tox : ToxOutcome) :
    (check_safety text tox).is_critical = true ↔ (check_safety text tox).reasons ≠ [] := by
  simp only [check_safety]
  cases hh : familyHit hateWords (pyLower text) <;>
  cases ht : familyHit threatWords (pyLower text) <;>
  cases hs : familyHit selfHarmWords (pyLower text) <;>
  cases hi : familyHit illegalAdviceWords (pyLower text) <;>
  cases hm : modelFlagOutcome tox <;>
  simp

/-- Claim C6 (counterexample): a text containing an email, a phone
number and a URL is fully redacted (all three categories detected), yet
check_pii returns exactly one reason, not three. -/
theorem pii_aggregate_counterexample :
    (check_pii "a@b.cc 123456789 www.x".data).cleaned_text = "[EMAIL] [PHONE] [URL]".data
    ∧ (check_pii "a@b.cc 123456789 www.x".data).reasons.length = 1 := by
  constructor <;> decide

/-- Claim C6 (amended): check_pii appends exactly one aggregate reason
string when any PII category is detected, and none otherwise. -/
theorem pii_reasons_aggregate (text : List Char) :
    ((check_pii text).had_pii = true →
      (check_pii text).reasons = ["contains PII (auto-redacted)".data])
    ∧ ((check_pii text).had_pii = false → (check_pii text).reasons = []) := by
  constructor <;> intro h <;> rw [check_pii_reasons_eq, h] <;> simp

theorem pii_reasons_aggregate_witness :
    (check_pii "a@b.cc".data).had_pii = true
    ∧ (check_pii "a@b.cc".data).reasons = ["contains PII (auto-redacted)".data] :=
  ⟨by decide, (pii_reasons_aggregate ("a@b.cc".data)).1 (by decide)⟩

/-- Claim C7 (counterexample): redact_pii is not idempotent.  On
"123456789012https://x" the first pass only redacts the URL (the digit
run has no trailing word boundary), producing "123456789012[URL]"; the
second pass then matches the digit run as a phone number against the
boundary created by the bracket. -/
theorem pii_not_idempotent :
    (check_pii ((check_pii "123456789012https://x".data).cleaned_text)).cleaned_text
      ≠ (check_pii "123456789012https://x".data).cleaned_text := by decide

/-- Claim C7 (amended): a second application of check_pii returns the
first application's cleaned_text unchanged whenever the first
application detected no PII (in which case the cleaned text is the input
itself); when PII was detected a second application may redact further. -/
theorem pii_idempotent_when_clean (text : List Char)
    (h : (check_pii text).had_pii = false) :
    (check_pii text).cleaned_text = text
    ∧ check_pii ((check_pii text).cleaned_text) = check_pii text := by
  have h' := h
  simp only [check_pii, Bool.or_eq_false_iff] at h'
  obtain ⟨⟨he, hp⟩, hu⟩ := h'
  simp only [he, if_false, Bool.false_eq_true] at hp hu
  simp only [hp, if_false, Bool.false_eq_true] at hu
  have hc : (check_pii text).cleaned_text = text := by
    simp [check_pii, he, hp, hu]
  exact ⟨hc, by rw [hc]⟩

theorem pii_idempotent_when_clean_witness :
    (check_pii "hello".data).had_pii = false
    ∧ ((check_pii "hello".data).cleaned_text = "hello".data
       ∧ check_pii ((check_pii "hello".data).cleaned_text) = check_pii "hello".data) :=
  ⟨by decide, pii_idempotent_when_clean ("hello".data) (by decide)⟩

/-- Claim C5 (code evaluated at the failing inputs of the phone rule): an eight-digit
phone-like sequence is not redacted (the pattern requires nine
characters between its word boundaries), and on the repository's own
test input the seven-digit "555-1234" survives while only the email is
redacted — the unit tests expect "[PHONE]" there. -/
theorem pii_misses_short_phone :
    check_pii "12345678".data = ⟨"12345678".data, false, []⟩
    ∧ check_pii "Email me at test@example.com or call 555-1234.".data
      = ⟨"Email me at [EMAIL] or call 555-1234.".data, true,
         ["contains PII (auto-redacted)".data]⟩ := by
  constructor <;> decide

/-- Claim C1 (counterexample): a zero-shot relevance classifier failure
is not absorbed — validate_experience propagates it instead of
returning a verdict. -/
theorem validate_raises_on_relevance_failure :
    validate_experience "I had a great interview".data (ToxOutcome.ok "neutral".data 0)
      RelOutcome.err 0 = Except.error () := rfl

/-- Claim C1 (amended): whenever the relevance classifier call succeeds,
validate_experience returns a complete verdict for every input and every
toxicity-classifier outcome — in particular a toxicity model failure is
absorbed locally and the pipeline degrades to keyword-only safety. -/
theorem validate_total_when_relevance_ok (text : List Char) (tox : ToxOutcome)
    (pairs : List (List Char × ℚ)) (now : ℕ) :
    ∃ v, validate_experience text tox (RelOutcome.ok pairs) now = Except.ok v :=
  ⟨_, rfl⟩

/-- Claim C4: check_spam flags two or more URLs as spam with the
many-links reason; otherwise a promotional keyword flags spam with the
promotional-language reason; otherwise a single URL only appends the
advisory reason without flagging; otherwise the result is clean with no
reasons; and the reasons list always carries the URL-count reason before
the keyword reason, both before the single-link advisory. -/
theorem spam_rules (text : List Char) :
    (2 ≤ urlCount text →
      (check_spam text).is_spam = true
      ∧ "many links (possible promotion)".data ∈ (check_spam text).reasons)
    ∧ (urlCount text < 2 → hasPromoKeyword text = true →
      (check_spam text).is_spam = true
      ∧ (check_spam text).reasons = ["promotional language".data])
    ∧ (urlCount text = 1 → hasPromoKeyword text = false →
      (check_spam text).is_spam = false
      ∧ (check_spam text).reasons = ["contains link (needs review)".data])
    ∧ (urlCount text = 0 → hasPromoKeyword text = false →
      (check_spam text).is_spam = false ∧ (check_spam text).reasons = [])
    ∧ (check_spam text).reasons =
        (if 2 ≤ urlCount text then ["many links (possible promotion)".data] else [])
        ++ (if hasPromoKeyword text = true then ["promotional language".data] else [])
        ++ (if (check_spam text).is_spam = false ∧ urlCount text = 1 then
              ["contains link (needs review)".data] else []) := by
  refine ⟨?_, ?_, ?_, ?_, ?_⟩
  · intro h2
    simp [check_spam, h2]
  · intro h2 hp
    have h2' : ¬ 2 ≤ urlCount text := by omega
    simp [check_spam, h2', hp]
  · intro h1 hp
    have h2' : ¬ 2 ≤ urlCount text := by omega
    simp [check_spam, h2', hp, h1]
  · intro h0 hp
    have h2' : ¬ 2 ≤ urlCount text := by omega
    simp [check_spam, h2', hp, h0]
  · by_cases h2 : 2 ≤ urlCount text <;> by_cases hp : hasPromoKeyword text = true <;>
      by_cases h1 : urlCount text = 1 <;>
      simp_all [check_spam]

/-- Claim C2: validate_experience decides severity and status by strict
priority over the checks run on the PII-cleaned text — critical safety
first, then spam, then off-topic, then had-PII, else approved with null
severity — and flagged_at is non-null exactly when status is pending. -/
theorem validate_priority (text : List Char) (tox : ToxOutcome) (rel : RelOutcome)
    (now : ℕ) (v : Verdict) (relr : RelevanceResult)
    (hrel : check_relevance (check_pii text).cleaned_text rel = Except.ok relr)
    (h : validate_experience text tox rel now = Except.ok v) :
    ((check_safety (check_pii text).cleaned_text tox).is_critical = true →
      v.severity = some "critical".data ∧ v.status = "pending".data)
    ∧ ((check_safety (check_pii text).cleaned_text tox).is_critical = false →
      (check_spam (check_pii text).cleaned_text).is_spam = true →
      v.severity = some "medium".data ∧ v.status = "pending".data)
    ∧ ((check_safety (check_pii text).cleaned_text tox).is_critical = false →
      (check_spam (check_pii text).cleaned_text).is_spam = false →
      relr.is_off_topic = true →
      v.severity = some "low".data ∧ v.status = "pending".data)
    ∧ ((check_safety (check_pii text).cleaned_text tox).is_critical = false →
      (check_spam (check_pii text).cleaned_text).is_spam = false →
      relr.is_off_topic = false → (check_pii text).had_pii = true →
      v.severity = some "medium".data ∧ v.status = "pending".data)
    ∧ ((check_safety (check_pii text).cleaned_text tox).is_critical = false →
      (check_spam (check_pii text).cleaned_text).is_spam = false →
      relr.is_off_topic = false → (check_pii text).had_pii = false →
      v.status = "approved".data ∧ v.severity = none)
    ∧ (v.flagged_at ≠ none ↔ v.status = "pending".data) := by
  have hne : ("approved".data : List Char) ≠ "pending".data := by decide
  simp only [validate_experience] at h
  rw [hrel] at h
  simp only [Except.ok.injEq] at h
  subst h
  cases hcrit : (check_safety (check_pii text).cleaned_text tox).is_critical <;>
  cases hspam : (check_spam (check_pii text).cleaned_text).is_spam <;>
  cases hoff : relr.is_off_topic <;>
  cases hpii : (check_pii text).had_pii <;>
  simp_all

theorem validate_priority_witness :
    validate_experience "job".data ToxOutcome.err (RelOutcome.ok [(relevanceOnTopicA, 1)]) 0
      = Except.ok ⟨"job".data, "approved".data, none, none, none⟩
    ∧ (Verdict.status ⟨"job".data, "approved".data, none, none, none⟩ = "approved".data
       ∧ Verdict.severity ⟨"job".data, "approved".data, none, none, none⟩ = none) :=
  ⟨rfl,
   (validate_priority "job".data ToxOutcome.err (RelOutcome.ok [(relevanceOnTopicA, 1)]) 0
      ⟨"job".data, "approved".data, none, none, none⟩ ⟨false, []⟩ rfl rfl).2.2.2.2.1
     rfl rfl rfl rfl⟩

theorem spam_rules_witness :
    urlCount "Use promo code SAVE20 today".data < 2
    ∧ hasPromoKeyword "Use promo code SAVE20 today".data = true
    ∧ ((check_spam "Use promo code SAVE20 today".data).is_spam = true
       ∧ (check_spam "Use promo code SAVE20 today".data).reasons
         = ["promotional language".data]) :=
  ⟨by decide, rfl,
   (spam_rules ("Use promo code SAVE20 today".data)).2.1 (by decide) rfl⟩

theorem pyRsplitOne_split (l : List Char) (h : l.contains ' ' = true) :
    ∃ t, l = pyRsplitOne l ++ ' ' :: t := by
  have hmem : (' ' : Char) ∈ l := List.elem_iff.mp h
  have hne : l.reverse.dropWhile (fun c => !(c == ' ')) ≠ [] := by
    intro hnil
    rw [List.dropWhile_eq_nil_iff] at hnil
    have := hnil ' ' (List.mem_reverse.mpr hmem)
    simp at this
  obtain ⟨d, tl, hdw⟩ : ∃ d tl, l.reverse.dropWhile (fun c => !(c == ' ')) = d :: tl := by
    cases hdw : l.reverse.dropWhile (fun c => !(c == ' ')) with
    | nil => exact absurd hdw hne
    | cons d tl => exact ⟨d, tl, rfl⟩
  have hd : d = ' ' := by
    have h2 := List.head_dropWhile_not (fun c => !(c == ' ')) l.reverse hne
    simp only [hdw, List.head_cons] at h2
    simpa using h2
  subst hd
  have hsplit : l.reverse.takeWhile (fun c => !(c == ' ')) ++ (' ' :: tl) = l.reverse := by
    rw [← hdw]
    exact List.takeWhile_append_dropWhile _ _
  have hps : pyRsplitOne l = tl.reverse := by
    simp [pyRsplitOne, hmem, hdw]
  refine ⟨(l.reverse.takeWhile (fun c => !(c == ' '))).reverse, ?_⟩
  rw [hps]
  have h3 := congrArg List.reverse hsplit
  simpa using h3.symm

theorem pyRsplitOne_length (l : List Char) : (pyRsplitOne l).length ≤ l.length := by
  by_cases h : l.contains ' ' = true
  · obtain ⟨t, ht⟩ := pyRsplitOne_split l h
    have h2 := congrArg List.length ht
    simp [List.length_append] at h2
    omega
  · have hm : (' ' : Char) ∉ l := fun hmem => h (List.elem_iff.mpr hmem)
    simp [pyRsplitOne, hm]

/-- Claim C8: truncation is the identity on short texts; otherwise the
result is at most max_length plus the marker length, ends with the fixed
marker, and cuts exactly at a space whenever the first max_length
characters contain one. -/
theorem truncate_props (text : List Char) (max_length : ℕ) :
    (text.length ≤ max_length → truncate_text text max_length = text)
    ∧ (max_length < text.length →
        (truncate_text text max_length).length ≤ max_length + truncationMarker.length
        ∧ (∃ w, truncate_text text max_length = w ++ truncationMarker)
        ∧ (' ' ∈ text.take max_length →
            ∃ i, truncate_text text max_length = text.take i ++ truncationMarker
              ∧ text.get? i = some ' ' ∧ i ≤ max_length)) := by
  constructor
  · intro h
    simp [truncate_text, h]
  · intro h
    have hnle : ¬ text.length ≤ max_length := by omega
    have htr : truncate_text text max_length
        = pyRsplitOne (text.take max_length) ++ truncationMarker := by
      simp [truncate_text, hnle]
    have htk : (text.take max_length).length ≤ max_length := by
      simp [List.length_take]
    refine ⟨?_, ⟨_, htr⟩, ?_⟩
    · rw [htr]
      have h1 := pyRsplitOne_length (text.take max_length)
      simp only [List.length_append]
      omega
    · intro hsp
      have hc : (text.take max_length).contains ' ' = true :=
        List.elem_iff.mpr hsp
      obtain ⟨t, ht⟩ := pyRsplitOne_split (text.take max_length) hc
      set w : List Char := pyRsplitOne (text.take max_length) with hw
      have h2 : (text.take max_length).length = w.length + 1 + t.length := by
        rw [ht]
        simp [List.length_append]
        omega
      have hwlt : w.length < max_length := by omega
      refine ⟨w.length, ?_, ?_, by omega⟩
      · rw [htr]
        have htt : (text.take max_length).take w.length = w := by
          rw [ht]
          exact List.take_left _ _
        rw [List.take_take] at htt
        have hmin : min w.length max_length = w.length := by omega
        rw [hmin] at htt
        rw [htt]
      · have hg : (text.take max_length).get? w.length = some ' ' := by
          rw [ht, List.get?_append_right (le_refl _)]
          simp
        rw [List.get?_take hwlt] at hg
        exact hg

theorem mem_insertLe {α : Type} (le : α → α → Bool) (a : α) (l : List α) (x : α) :
    x ∈ insertLe le a l ↔ x = a ∨ x ∈ l := by
  induction l with
  | nil => simp [insertLe]
  | cons b bs ih =>
    by_cases h : le a b
    · simp [insertLe, h]
    · simp [insertLe, h, ih]
      tauto

theorem length_insertLe {α : Type} (le : α → α → Bool) (a : α) (l : List α) :
    (insertLe le a l).length = l.length + 1 := by
  induction l with
  | nil => simp [insertLe]
  | cons b bs ih =>
    by_cases h : le a b <;> simp [insertLe, h, ih]

theorem length_sortLe {α : Type} (le : α → α → Bool) (l : List α) :
    (sortLe le l).length = l.length := by
  induction l with
  | nil => rfl
  | cons a as ih => simp [sortLe, length_insertLe, ih]

theorem mem_sortLe {α : Type} (le : α → α → Bool) (l : List α) (x : α) :
    x ∈ sortLe le l ↔ x ∈ l := by
  induction l with
  | nil => simp [sortLe]
  | cons a as ih => simp [sortLe, mem_insertLe, ih]

theorem pairwise_insertLe {α : Type} (le : α → α → Bool)
    (htot : ∀ a b, le a b = true ∨ le b a = true)
    (htrans : ∀ a b c, le a b = true → le b c = true → le a c = true)
    (a : α) (l : List α) (h : l.Pairwise (fun x y => le x y = true)) :
    (insertLe le a l).Pairwise (fun x y => le x y = true) := by
  induction l with
  | nil => simp [insertLe]
  | cons b bs ih =>
    cases h with
    | cons hb hbs =>
    by_cases hab : le a b = true
    · simp only [insertLe, hab, if_true]
      refine List.Pairwise.cons ?_ (List.Pairwise.cons hb hbs)
      intro y hy
      rcases List.mem_cons.mp hy with heq | hy
      · rw [heq]; exact hab
      · exact htrans a b y hab (hb y hy)
    · simp only [insertLe, hab, if_false]
      refine List.Pairwise.cons ?_ (ih hbs)
      intro y hy
      rcases (mem_insertLe le a bs y).mp hy with heq | hy
      · rw [heq]; exact (htot a b).resolve_left hab
      · exact hb y hy

theorem pairwise_sortLe {α : Type} (le : α → α → Bool)
    (htot : ∀ a b, le a b = true ∨ le b a = true)
    (htrans : ∀ a b c, le a b = true → le b c = true → le a c = true)
    (l : List α) : (sortLe le l).Pairwise (fun x y => le x y = true) := by
  induction l with
  | nil => simp [sortLe]
  | cons a as ih => exact pairwise_insertLe le htot htrans a (sortLe le as) ih

theorem mem_eligiblePairs (posts : List PostRow) (subs : List SubRow) (x : Row × Vec) :
    x ∈ eligiblePairs posts subs ↔
      (∃ p ∈ posts, p.embedding = some x.2 ∧ x.1 = Row.post p)
      ∨ (∃ s ∈ subs, s.status = "approved".data ∧ s.embedding = some x.2
          ∧ x.1 = Row.sub s) := by
  obtain ⟨r, e⟩ := x
  simp only [eligiblePairs, List.mem_append, List.mem_filterMap]
  constructor
  · rintro (⟨p, hp, hmap⟩ | ⟨s, hs, hmap⟩)
    · rw [Option.map_eq_some'] at hmap
      obtain ⟨e', he', heq⟩ := hmap
      obtain ⟨rfl, rfl⟩ := Prod.mk.injEq .. ▸ heq
      exact Or.inl ⟨p, hp, by simp [he']⟩
    · by_cases hst : s.status = "approved".data
      · rw [if_pos hst, Option.map_eq_some'] at hmap
        obtain ⟨e', he', heq⟩ := hmap
        obtain ⟨rfl, rfl⟩ := Prod.mk.injEq .. ▸ heq
        exact Or.inr ⟨s, hs, hst, by simp [he']⟩
      · rw [if_neg hst] at hmap
        exact absurd hmap (by simp)
  · rintro (⟨p, hp, hemb, rfl⟩ | ⟨s, hs, hst, hemb, rfl⟩)
    · exact Or.inl ⟨p, hp, by simp [hemb]⟩
    · exact Or.inr ⟨s, hs, by simp [hst, hemb]⟩

theorem eligiblePairs_snd (posts : List PostRow) (subs : List SubRow) (x : Row × Vec)
    (hx : x ∈ eligiblePairs posts subs) : x.2 = rowVec x.1 := by
  rcases (mem_eligiblePairs posts subs x).mp hx with ⟨p, _, hemb, hr⟩ | ⟨s, _, _, hemb, hr⟩
  · rw [hr, rowVec, hemb]; rfl
  · rw [hr, rowVec, hemb]; rfl

/-- Claim C3: the retriever returns at most k rows, each drawn only
from posts with a non-null embedding or user submissions with a
non-null embedding and approved status (a pending submission never
appears), in one combined ranking by ascending vector distance; when
fewer than k eligible rows exist all of them are returned, unpadded. -/
theorem retrieve_props (dist : Vec → Vec → ℚ) (q : Vec) (k : ℕ)
    (posts : List PostRow) (subs : List SubRow) :
    (get_relevant_rows dist q k posts subs).length ≤ k
    ∧ (∀ r ∈ get_relevant_rows dist q k posts subs,
        (∃ p ∈ posts, r = Row.post p ∧ p.embedding.isSome = true)
        ∨ (∃ s ∈ subs, r = Row.sub s ∧ s.embedding.isSome = true
            ∧ s.status = "approved".data))
    ∧ (∀ s : SubRow, Row.sub s ∈ get_relevant_rows dist q k posts subs →
        s.status ≠ "pending".data)
    ∧ (get_relevant_rows dist q k posts subs).Pairwise
        (fun a b => dist q (rowVec a) ≤ dist q (rowVec b))
    ∧ ((eligiblePairs posts subs).length ≤ k →
        (get_relevant_rows dist q k posts subs).length = (eligiblePairs posts subs).length
        ∧ ∀ x ∈ eligiblePairs posts subs, x.1 ∈ get_relevant_rows dist q k posts subs) := by
  have hmemres : ∀ x : Row × Vec,
      x ∈ (sortLe (distLe dist q) (eligiblePairs posts subs)).take k →
      x ∈ eligiblePairs posts subs := fun x hx =>
    (mem_sortLe _ _ x).mp (List.mem_of_mem_take hx)
  refine ⟨?_, ?_, ?_, ?_, ?_⟩
  · simp only [get_relevant_rows, List.length_map, List.length_take]
    omega
  · intro r hr
    simp only [get_relevant_rows, List.mem_map] at hr
    obtain ⟨x, hx, rfl⟩ := hr
    rcases (mem_eligiblePairs posts subs x).mp (hmemres x hx) with
      ⟨p, hp, hemb, hr1⟩ | ⟨s, hs, hst, hemb, hr1⟩
    · exact Or.inl ⟨p, hp, hr1, by simp [hemb]⟩
    · exact Or.inr ⟨s, hs, hr1, by simp [hemb], hst⟩
  · intro s hs hpend
    simp only [get_relevant_rows, List.mem_map] at hs
    obtain ⟨x, hx, hfst⟩ := hs
    rcases (mem_eligiblePairs posts subs x).mp (hmemres x hx) with
      ⟨p, _, _, hr1⟩ | ⟨s', _, hst, _, hr1⟩
    · rw [hr1] at hfst
      exact absurd hfst (by simp)
    · rw [hr1] at hfst
      have : s' = s := by simpa using hfst
      rw [this] at hst
      rw [hst] at hpend
      exact absurd hpend (by decide)
  · have htot : ∀ a b : Row × Vec, distLe dist q a b = true ∨ distLe dist q b a = true := by
      intro a b
      simp only [distLe, decide_eq_true_eq]
      exact le_total _ _
    have htrans : ∀ a b c : Row × Vec, distLe dist q a b = true →
        distLe dist q b c = true → distLe dist q a c = true := by
      intro a b c
      simp only [distLe, decide_eq_true_eq]
      exact le_trans
    have hps := pairwise_sortLe (distLe dist q) htot htrans (eligiblePairs posts subs)
    have hpt := hps.sublist (List.take_sublist k _)
    rw [get_relevant_rows, List.pairwise_map]
    refine hpt.imp_of_mem ?_
    intro a b ha hb hle
    have h2 := eligiblePairs_snd posts subs a (hmemres a ha)
    have h3 := eligiblePairs_snd posts subs b (hmemres b hb)
    simp only [distLe, decide_eq_true_eq] at hle
    rw [h2, h3] at hle
    exact hle
  · intro hlek
    have hslen : (sortLe (distLe dist q) (eligiblePairs posts subs)).length
        = (eligiblePairs posts subs).length := length_sortLe _ _
    have htake : (sortLe (distLe dist q) (eligiblePairs posts subs)).take k
        = sortLe (distLe dist q) (eligiblePairs posts subs) :=
      List.take_of_length_le (by omega)
    constructor
    · simp [get_relevant_rows, htake, hslen]
    · intro x hx
      have hxs : x ∈ sortLe (distLe dist q) (eligiblePairs posts subs) :=
        (mem_sortLe _ _ x).mpr hx
      simp only [get_relevant_rows, htake, List.mem_map]
      exact ⟨x, hxs, rfl⟩

theorem mem_middle_iff {γ : Type} (a : γ) (s t : List γ) (x : γ) :
    x ∈ s ++ a :: t ↔ x ∈ a :: (s ++ t) := by
  simp only [List.mem_append, List.mem_cons]
  tauto

theorem dedupByKeyAux_congr (s₁ s₂ : List (Bool × List Char))
    (h : ∀ x, x ∈ s₁ ↔ x ∈ s₂) (l : List SourceInfo) :
    dedupByKeyAux s₁ l = dedupByKeyAux s₂ l := by
  induction l generalizing s₁ s₂ with
  | nil => rfl
  | cons e es ih =>
    simp only [dedupByKeyAux]
    by_cases hk : entryKey e ∈ s₁
    · rw [if_pos hk, if_pos ((h _).mp hk)]
      exact ih s₁ s₂ h
    · rw [if_neg hk, if_neg (fun hc => hk ((h _).mpr hc))]
      congr 1
      exact ih _ _ (fun x => by simp [List.mem_cons, h x])

theorem entryKey_exp (d : DocMeta) (eid : List Char) :
    entryKey (expSourceInfo d eid) = (true, eid) := rfl

theorem entryKey_post (d : DocMeta) (u : List Char) :
    entryKey (postSourceInfo d u) = (false, u) := rfl

theorem buildSourcesGo_eq (docs : List DocMeta) (seenU seenE : List (List Char)) :
    buildSourcesGo seenU seenE docs
      = dedupByKeyAux
          (seenU.map (fun u => (false, u)) ++ seenE.map (fun i => (true, i)))
          (docs.filterMap candidateEntry) := by
  induction docs generalizing seenU seenE with
  | nil => rfl
  | cons d ds ih =>
    by_cases hty : d.source_type = "user_experience".data
    · cases hpid : d.post_id with
      | none =>
        have hcand : candidateEntry d = none := by simp [candidateEntry, hty, hpid]
        rw [List.filterMap_cons_none hcand]
        simp only [buildSourcesGo, hty, if_pos, hpid]
        exact ih seenU seenE
      | some eid =>
        by_cases hnil : eid = []
        · have hcand : candidateEntry d = none := by
            simp [candidateEntry, hty, hpid, hnil]
          rw [List.filterMap_cons_none hcand]
          simp only [buildSourcesGo, hty, if_pos, hpid]
          rw [if_neg (by simp [hnil])]
          exact ih seenU seenE
        · have hcand : candidateEntry d = some (expSourceInfo d eid) := by
            simp [candidateEntry, hty, hpid, hnil]
          rw [List.filterMap_cons_some hcand]
          by_cases hseen : eid ∈ seenE
          · have hkey : entryKey (expSourceInfo d eid)
                ∈ seenU.map (fun u => (false, u)) ++ seenE.map (fun i => (true, i)) := by
              rw [entryKey_exp]
              simp [List.mem_append, List.mem_map]
              exact hseen
            simp only [buildSourcesGo, hty, if_pos, hpid]
            rw [if_neg (by simp [hseen])]
            rw [dedupByKeyAux, if_pos hkey]
            exact ih seenU seenE
          · have hkey : entryKey (expSourceInfo d eid)
                ∉ seenU.map (fun u => (false, u)) ++ seenE.map (fun i => (true, i)) := by
              rw [entryKey_exp]
              simp [List.mem_append, List.mem_map]
              exact hseen
            simp only [buildSourcesGo, hty, if_pos, hpid]
            rw [if_pos ⟨hnil, hseen⟩]
            rw [dedupByKeyAux, if_neg hkey]
            congr 1
            rw [ih seenU (eid :: seenE)]
            rw [entryKey_exp]
            apply dedupByKeyAux_congr
            intro x
            simp only [List.map_cons]
            exact mem_middle_iff (true, eid) _ _ x
    · cases hurl : d.url with
      | none =>
        have hcand : candidateEntry d = none := by simp [candidateEntry, hty, hurl]
        rw [List.filterMap_cons_none hcand]
        simp only [buildSourcesGo]
        rw [if_neg hty]
        simp only [hurl]
        exact ih seenU seenE
      | some u =>
        by_cases hnil : u = []
        · have hcand : candidateEntry d = none := by
            simp [candidateEntry, hty, hurl, hnil]
          rw [List.filterMap_cons_none hcand]
          simp only [buildSourcesGo]
          rw [if_neg hty]
          simp only [hurl]
          rw [if_neg (by simp [hnil])]
          exact ih seenU seenE
        · have hcand : candidateEntry d = some (postSourceInfo d u) := by
            simp [candidateEntry, hty, hurl, hnil]
          rw [List.filterMap_cons_some hcand]
          by_cases hseen : u ∈ seenU
          · have hkey : entryKey (postSourceInfo d u)
                ∈ seenU.map (fun x => (false, x)) ++ seenE.map (fun i => (true, i)) := by
              rw [entryKey_post]
              simp [List.mem_append, List.mem_map]
              exact hseen
            simp only [buildSourcesGo]
            rw [if_neg hty]
            simp only [hurl]
            rw [if_neg (by simp [hseen])]
            rw [dedupByKeyAux, if_pos hkey]
            exact ih seenU seenE
          · have hkey : entryKey (postSourceInfo d u)
                ∉ seenU.map (fun x => (false, x)) ++ seenE.map (fun i => (true, i)) := by
              rw [entryKey_post]
              simp [List.mem_append, List.mem_map]
              exact hseen
            simp only [buildSourcesGo]
            rw [if_neg hty]
            simp only [hurl]
            rw [if_pos ⟨hnil, hseen⟩]
            rw [dedupByKeyAux, if_neg hkey]
            congr 1
            rw [ih (u :: seenU) seenE]
            rw [entryKey_post]
            apply dedupByKeyAux_congr
            intro x
            simp only [List.map_cons, List.cons_append]

theorem dedupByKeyAux_key_not_seen (l : List SourceInfo) (seen : List (Bool × List Char)) :
    ∀ e ∈ dedupByKeyAux seen l, entryKey e ∉ seen := by
  induction l generalizing seen with
  | nil => intro e he; simp [dedupByKeyAux] at he
  | cons a as ih =>
    intro e he
    simp only [dedupByKeyAux] at he
    by_cases hk : entryKey a ∈ seen
    · rw [if_pos hk] at he
      exact ih seen e he
    · rw [if_neg hk] at he
      rcases List.mem_cons.mp he with heq | he
    
      · rw [heq]; exact hk
      · have := ih (entryKey a :: seen) e he
        exact fun hc => this (List.mem_cons_of_mem _ hc)

theorem dedupByKeyAux_pairwise (l : List SourceInfo) (seen : List (Bool × List Char)) :
    (dedupByKeyAux seen l).Pairwise (fun a b => entryKey a ≠ entryKey b) := by
  induction l generalizing seen with
  | nil => exact List.Pairwise.nil
  | cons a as ih =>
    simp only [dedupByKeyAux]
    by_cases hk : entryKey a ∈ seen
    · rw [if_pos hk]; exact ih seen
    · rw [if_neg hk]
      refine List.Pairwise.cons ?_ (ih (entryKey a :: seen))
      intro b hb
      have := dedupByKeyAux_key_not_seen as (entryKey a :: seen) b hb
      intro hc
      exact this (by rw [← hc]; exact List.mem_cons_self _ _)

theorem dedupByKeyAux_subset (l : List SourceInfo) (seen : List (Bool × List Char)) :
    ∀ e ∈ dedupByKeyAux seen l, e ∈ l := by
  induction l generalizing seen with
  | nil => intro e he; simp [dedupByKeyAux] at he
  | cons a as ih =>
    intro e he
    simp only [dedupByKeyAux] at he
    by_cases hk : entryKey a ∈ seen
    · rw [if_pos hk] at he
      exact List.mem_cons_of_mem _ (ih seen e he)
    · rw [if_neg hk] at he
      rcases List.mem_cons.mp he with heq | he
      · rw [heq]; exact List.mem_cons_self _ _
      · exact List.mem_cons_of_mem _ (ih (entryKey a :: seen) e he)

theorem candidateEntry_shape (d : DocMeta) (e : SourceInfo)
    (h : candidateEntry d = some e) :
    (∃ u, e.url = some u ∧ u ≠ [])
    ∨ (e.url = none ∧ ∃ eid, e.post_id = some eid ∧ eid ≠ []) := by
  simp only [candidateEntry] at h
  by_cases hty : d.source_type = "user_experience".data
  · rw [if_pos hty] at h
    cases hpid : d.post_id with
    | none => rw [hpid] at h; exact absurd h (by simp)
    | some eid =>
      simp only [hpid] at h
      by_cases hnil : eid = []
      · rw [if_neg (by simp [hnil])] at h
        exact absurd h (by simp)
      · rw [if_pos hnil] at h
        injection h with h2
        subst h2
        exact Or.inr ⟨rfl, eid, rfl, hnil⟩
  · rw [if_neg hty] at h
    cases hurl : d.url with
    | none => rw [hurl] at h; exact absurd h (by simp)
    | some u =>
      simp only [hurl] at h
      by_cases hnil : u = []
      · rw [if_neg (by simp [hnil])] at h
        exact absurd h (by simp)
      · rw [if_pos hnil] at h
        injection h with h2
        subst h2
        exact Or.inl ⟨u, rfl, hnil⟩

/-- Claim C9: the sources list built by ask_question equals the
first-seen de-duplication (by post URL for post documents and by
submission id for user-experience documents) of the entries the
returned documents contribute in order; entry keys are pairwise
distinct, and a post document with a null or empty URL contributes no
entry (every post entry carries a non-empty URL). -/
theorem sources_dedup_props (docs : List DocMeta) :
    build_sources docs = firstSeenDedup (docs.filterMap candidateEntry)
    ∧ (build_sources docs).Pairwise (fun a b => entryKey a ≠ entryKey b)
    ∧ ∀ e ∈ build_sources docs,
        (∃ u, e.url = some u ∧ u ≠ [])
        ∨ (e.url = none ∧ ∃ eid, e.post_id = some eid ∧ eid ≠ []) := by
  have h1 : build_sources docs = firstSeenDedup (docs.filterMap candidateEntry) := by
    rw [build_sources, firstSeenDedup, buildSourcesGo_eq docs [] []]
    rfl
  refine ⟨h1, ?_, ?_⟩
  · rw [h1, firstSeenDedup]
    exact dedupByKeyAux_pairwise _ _
  · intro e he
    rw [h1, firstSeenDedup] at he
    have hmem := dedupByKeyAux_subset _ _ e he
    obtain ⟨d, _, hcand⟩ := List.mem_filterMap.mp hmem
    exact candidateEntry_shape d e hcand

theorem sources_dedup_props_witness :
    witnessEntry ∈ build_sources witnessDocs
    ∧ ((∃ u, witnessEntry.url = some u ∧ u ≠ [])
       ∨ (witnessEntry.url = none
          ∧ ∃ eid, witnessEntry.post_id = some eid ∧ eid ≠ [])) :=
  ⟨by decide, (sources_dedup_props witnessDocs).2.2 witnessEntry (by decide)⟩

theorem truncate_props_witness :
    11 < ("hello world this is long".data : List Char).length
    ∧ ((truncate_text "hello world this is long".data 11).length
          ≤ 11 + truncationMarker.length
       ∧ (∃ w, truncate_text "hello world this is long".data 11 = w ++ truncationMarker)
       ∧ (' ' ∈ ("hello world this is long".data : List Char).take 11 →
           ∃ i, truncate_text "hello world this is long".data 11
                = ("hello world this is long".data : List Char).take i ++ truncationMarker
             ∧ ("hello world this is long".data : List Char).get? i = some ' '
             ∧ i ≤ 11)) :=
  ⟨by decide, (truncate_props ("hello world this is long".data) 11).2 (by decide)⟩

theorem retrieve_props_witness :
    (eligiblePairs witnessPosts witnessSubs).length ≤ 5
    ∧ ((get_relevant_rows witnessDist witnessQuery 5 witnessPosts witnessSubs).length
          = (eligiblePairs witnessPosts witnessSubs).length
       ∧ ∀ x ∈ eligiblePairs witnessPosts witnessSubs,
           x.1 ∈ get_relevant_rows witnessDist witnessQuery 5 witnessPosts witnessSubs) :=
  ⟨by decide,
   (retrieve_props witnessDist witnessQuery 5 witnessPosts witnessSubs).2.2.2.2 (by decide)⟩
